import Mathlib

/-!
Shallow embedding of the bandordle guess-grid component (the multi-word
Svelte component: `allowedChar`, `lockInGuess`, `effectiveIndex`,
`actualIndex`, the `onkeydown` handler) and of the slice of `api.ts`
(`makeGuess`) it calls.

Conventions of the embedding:
* JS `(string | undefined)` cell contents become `Option Char`; the guard
  `allowedChar` ensures every stored key string has exactly one character,
  so a cell stores that character.
* `selectedCell` is a `Nat`: every assignment in the source is `0`, an
  increment, or `Math.max(x - 1, 0)`, which truncated `Nat` subtraction
  models exactly.
* JS `event.key.toLowerCase()` is modelled by mapping `Char.toLower` over
  the characters; this agrees with JS on ASCII, and only ASCII characters
  can pass `allowedChar` or compare equal to "backspace"/"enter".
* The asynchronous `makeGuess(...).then(...).catch(...)` is modelled by a
  queue of outstanding requests (`pending`, holding each request's captured
  `guess` string) plus explicit response events that resolve the oldest
  outstanding request with the source's `.then` / `.catch` handler bodies.
* In-range JS array writes `cells[w][i] = v` become `List.set`; an
  out-of-range `w` would throw in JS and `List.set` ignores it, but no
  theorem below depends on an out-of-range write.
-/

namespace Bandordle

/-- `Grade` from `bindings/Grade`: the per-letter grading outcome. -/
inductive Grade where
  | Correct
  | WrongPlace
  | Incorrect
deriving DecidableEq

/-- One slot of the grid: `string | undefined` holding at most one character. -/
abbrev Cell := Option Char

/-- One word of the grid: `(string | undefined)[]`. -/
abbrev GridWord := List Cell

/-- `newArr(lengths)`: `lengths.map((l) => new Array(l).fill(undefined))`. -/
def newArr (lengths : List Nat) : List GridWord :=
  lengths.map fun l => List.replicate l none

/-- A single character of the class `[a-zA-Z1-9]`. -/
def allowedCharP (c : Char) : Bool :=
  ('a' ≤ c && c ≤ 'z') || ('A' ≤ c && c ≤ 'Z') || ('1' ≤ c && c ≤ '9')

/-- `allowedChar(ch)`: `ch.length === 1 && ch.match(/[a-zA-Z1-9]/)`.
The regex is unanchored, so `match` succeeds iff some character of `ch`
is in the class. -/
def allowedChar (s : String) : Bool :=
  s.length == 1 && s.data.any allowedCharP

/-- `event.key.toLowerCase()`, restricted to ASCII case mapping. -/
def jsToLower (s : String) : String :=
  String.mk (s.data.map Char.toLower)

/-- How JS `Array.prototype.join` renders one cell: `undefined` becomes `""`. -/
def cellString : Cell → String
  | none => ""
  | some c => String.singleton c

/-- `x.join("")` for one grid word: the concatenation of the rendered cells. -/
def wordString : GridWord → String
  | [] => ""
  | oc :: rest => cellString oc ++ wordString rest

/-- `cells.map((x) => x.join("")).join(" ")`: the word strings separated by
single spaces. -/
def joinWords : List GridWord → String
  | [] => ""
  | [w] => wordString w
  | w :: w' :: rest => wordString w ++ " " ++ joinWords (w' :: rest)

mutual
/-- `guess.split(/\s+/)`, with `' '` as the whitespace class (the only
whitespace character a joined guess can contain): currently inside a
chunk, accumulator reversed. -/
def splitWSGo : List Char → List Char → List String
  | [], acc => [String.mk acc.reverse]
  | c :: rest, acc =>
    if c = ' ' then String.mk acc.reverse :: splitWSSkip rest
    else splitWSGo rest (c :: acc)

/-- `guess.split(/\s+/)`: currently inside a separator run. -/
def splitWSSkip : List Char → List String
  | [] => [""]
  | c :: rest =>
    if c = ' ' then splitWSSkip rest
    else splitWSGo rest [c]
end

/-- `guess.split(/\s+/)` on a string. -/
def splitWS (s : String) : List String :=
  splitWSGo s.data []

/-- The element type the `.then` handler of `lockInGuess` actually pushes
(one entry per element of the response's `grade` array): `guess` is
`splitGuess[i]` (`undefined` when `i` is past the last word), `grade` is
the single element `grade[i]`.  The source's type annotation
`GuessedWord = { guess: string; grade: Grade[] }` declares `grade` as an
array; the constructed value pairs each entry with one `Grade`. -/
structure GuessedWord where
  guess : Option String
  grade : Grade
deriving DecidableEq

/-- The component state: the grid, the flat cursor, the history
(`previousGuesses`), the error banner, and the queue of outstanding
grading requests (each remembering the `guess` string its closures
captured). -/
structure GameState where
  cells : List GridWord
  selectedCell : Nat
  previousGuesses : List (List GuessedWord)
  error : Option String
  pending : List String
deriving DecidableEq

/-- `effectiveIndex(wordIdx, inWordIdx)`:
`cells.slice(0, wordIdx).map((x) => x.length).reduce((a, b) => a + b, 0) + inWordIdx`. -/
def effectiveIndex (cells : List GridWord) (wordIdx inWordIdx : Nat) : Nat :=
  ((cells.take wordIdx).map List.length).sum + inWordIdx

/-- The `while` loop of `actualIndex`, one recursive call per iteration;
`i` is the loop counter, the list argument is `cells.slice(i)`. -/
def actualIndexGo : List GridWord → Nat → Nat → Nat × Nat
  | [], i, sel => (i, sel)
  | w :: rest, i, sel =>
    if sel = 0 then (i, sel)
    else if sel < w.length then (i, sel)
    else actualIndexGo rest (i + 1) (sel - w.length)

/-- `actualIndex(sel)`: translate a flat position to `[wordIdx, inWordIdx]`. -/
def actualIndex (cells : List GridWord) (sel : Nat) : Nat × Nat :=
  actualIndexGo cells 0 sel

/-- `cells[w][i] = v` for in-range `w`, `i` (out-of-range writes, which
would throw in JS, are ignored). -/
def setCell (cells : List GridWord) (w i : Nat) (v : Cell) : List GridWord :=
  cells.set w ((cells.getD w []).set i v)

/-- The synchronous part of `lockInGuess()`: return unchanged when some
word `includes(undefined)`; otherwise issue the grading request for the
joined guess (the request joins the queue of outstanding requests). -/
def lockInGuess (st : GameState) : GameState :=
  if st.cells.any (fun w => w.contains none) then st
  else { st with pending := st.pending ++ [joinWords st.cells] }

/-- The body of `lockInGuess`'s `.then(({ grade }) => ...)` handler:
`guess.split(/\s+/)` then `grade.map((grade, i) => ({ grade, guess: splitGuess[i] }))`. -/
def splitGuessRecords (guess : String) (grade : List Grade) : List GuessedWord :=
  let splitGuess := splitWS guess
  grade.enum.map fun gi => { guess := splitGuess.get? gi.1, grade := gi.2 }

/-- A success response `{ grade }` resolving the oldest outstanding request:
push the record group, `cells = newArr(initialLen)`, `selectedCell = 0`,
`error = undefined`.  With no request outstanding the event cannot occur
(modelled as a no-op). -/
def applySuccess (lengths : List Nat) (st : GameState) (grade : List Grade) : GameState :=
  match st.pending with
  | [] => st
  | guess :: rest =>
    { cells := newArr lengths
      selectedCell := 0
      previousGuesses := st.previousGuesses ++ [splitGuessRecords guess grade]
      error := none
      pending := rest }

/-- A failure resolving the oldest outstanding request: the `.catch((x) =>
{ error = x.message ?? "oh no" })` handler; `msg` is the failure payload's
optional `message` field. -/
def applyFailure (st : GameState) (msg : Option String) : GameState :=
  match st.pending with
  | [] => st
  | _ :: rest => { st with error := some (msg.getD "oh no"), pending := rest }

/-- The `onkeydown` handler. -/
def handleKey (st : GameState) (rawKey : String) : GameState :=
  let key := jsToLower rawKey
  if key = "backspace" then
    let sel := st.selectedCell - 1
    let wi := actualIndex st.cells sel
    { st with selectedCell := sel, cells := setCell st.cells wi.1 wi.2 none }
  else if key = "enter" then
    lockInGuess st
  else
    let wi := actualIndex st.cells st.selectedCell
    if allowedChar key ∧ wi.1 < st.cells.length ∧ wi.2 < (st.cells.getD wi.1 []).length then
      { st with
        cells := setCell st.cells wi.1 wi.2 (some (key.data.headD ' '))
        selectedCell := st.selectedCell + 1 }
    else st

/-- The discrete events delivered to the component's event loop: a key
press (carrying the raw `event.key`), or the resolution of the oldest
outstanding grading request.

Modelled from the spec: the shape of the grading service's success
response (`bindings/GuessResult`, generated backend code not present in
the frontend sources) is `{ grade: flat sequence<Grade> }`, flat in
left-to-right letter order across the concatenated words, with no
word-boundary metadata. -/
inductive Event where
  | key (s : String)
  | success (grade : List Grade)
  | failure (msg : Option String)

/-- One event-loop turn. -/
def step (lengths : List Nat) (st : GameState) : Event → GameState
  | .key s => handleKey st s
  | .success g => applySuccess lengths st g
  | .failure m => applyFailure st m

/-- The component's initial state. -/
def initState (lengths : List Nat) : GameState :=
  { cells := newArr lengths
    selectedCell := 0
    previousGuesses := []
    error := none
    pending := [] }

/-- Run a sequence of events from the initial state. -/
def run (lengths : List Nat) (events : List Event) : GameState :=
  events.foldl (step lengths) (initState lengths)

/-- Total number of slots of a grid. -/
def sumLen (cells : List GridWord) : Nat :=
  (cells.map List.length).sum

/-- Modelled from the spec: the grade reconstruction §4.3 requires — split
the flat grade sequence into per-word chunks at the WordLengths prefix-sum
boundaries (chunk `i` has length `WordLengths[i]`). -/
def specGradeChunks : List Nat → List Grade → List (List Grade)
  | [], _ => []
  | l :: rest, flat => flat.take l :: specGradeChunks rest (flat.drop l)

/-- Modelled from the spec: a GuessRecord group pairs word `i`'s submitted
text with chunk `i` of the flat grade sequence. -/
structure SpecGuessRecord where
  text : String
  grades : List Grade
deriving DecidableEq

/-- Modelled from the spec: the GuessRecord group §4.3 requires for a
submission of `words` graded by the flat sequence `flat`. -/
def specGuessRecords (lengths : List Nat) (words : List String) (flat : List Grade) :
    List SpecGuessRecord :=
  (words.zip (specGradeChunks lengths flat)).map fun wg => { text := wg.1, grades := wg.2 }

/-- The structural part of the reachable-state invariant: the grid's word
lengths are the configured WordLengths, and the cursor is within the flat
slot range. -/
def Shaped (lengths : List Nat) (st : GameState) : Prop :=
  st.cells.map List.length = lengths ∧ st.selectedCell ≤ lengths.sum

/-- No uppercase letter anywhere: not in a grid slot, not in an
outstanding request's guess string, not in a history record's word. -/
def NoUpperState (st : GameState) : Prop :=
  (∀ w ∈ st.cells, ∀ c : Char, some c ∈ w → c.isUpper = false) ∧
  (∀ g ∈ st.pending, ∀ c ∈ g.data, c.isUpper = false) ∧
  (∀ grp ∈ st.previousGuesses, ∀ r ∈ grp, ∀ s, r.guess = some s →
    ∀ c ∈ s.data, c.isUpper = false)

/-! ## Character-level facts about the ASCII case mapping -/

theorem char_toNat_ofNat {m : Nat} (h : m.isValidChar) : (Char.ofNat m).toNat = m := by
  simp [Char.ofNat, dif_pos h, Char.ofNatAux, Char.toNat, UInt32.toNat]

theorem char_isUpper_iff (c : Char) : c.isUpper = true ↔ 65 ≤ c.toNat ∧ c.toNat ≤ 90 := by
  simp [Char.isUpper, UInt32.le_def, BitVec.le_def, Char.toNat, UInt32.toNat]

/-- Lowercasing never produces an uppercase ASCII letter. -/
theorem toLower_not_upper (c : Char) : (Char.toLower c).isUpper = false := by
  rw [Char.toLower]
  split
  · next h =>
    have hv : (c.toNat + 32).isValidChar := by
      left
      simp [Nat.isValidChar] at *
      omega
    have h2 := char_toNat_ofNat hv
    rw [Bool.eq_false_iff]
    intro hu
    rw [char_isUpper_iff] at hu
    omega
  · next h =>
    rw [Bool.eq_false_iff]
    intro hu
    rw [char_isUpper_iff] at hu
    exact h ⟨hu.1, hu.2⟩

/-- A character that is not uppercase is a fixed point of lowercasing. -/
theorem toLower_of_not_upper {c : Char} (h : c.isUpper = false) : Char.toLower c = c := by
  rw [Char.toLower, if_neg]
  intro hc
  rw [Bool.eq_false_iff] at h
  exact h ((char_isUpper_iff c).2 ⟨hc.1, hc.2⟩)

/-! ## Coordinate translation: facts about actualIndex and effectiveIndex -/

theorem sumLen_cons (w : GridWord) (rest : List GridWord) :
    sumLen (w :: rest) = w.length + sumLen rest := by
  simp [sumLen]

theorem effectiveIndex_eq (cells : List GridWord) (w s : Nat) :
    effectiveIndex cells w s = sumLen (cells.take w) + s := rfl

theorem actualIndexGo_spec : ∀ (cells : List GridWord) (i sel : Nat),
    i ≤ (actualIndexGo cells i sel).1 ∧
    (actualIndexGo cells i sel).1 - i ≤ cells.length ∧
    sumLen (cells.take ((actualIndexGo cells i sel).1 - i)) +
      (actualIndexGo cells i sel).2 = sel
  | [], i, sel => by simp [actualIndexGo, sumLen]
  | w :: rest, i, sel => by
    rw [actualIndexGo]
    by_cases h0 : sel = 0
    · subst h0
      simp [sumLen]
    · rw [if_neg h0]
      by_cases hlt : sel < w.length
      · rw [if_pos hlt]
        simp [sumLen]
      · rw [if_neg hlt]
        obtain ⟨ih1, ih2, ih3⟩ := actualIndexGo_spec rest (i + 1) (sel - w.length)
        have hws : w.length ≤ sel := Nat.le_of_not_lt hlt
        refine ⟨by omega, by simp; omega, ?_⟩
        have hstep : (actualIndexGo rest (i + 1) (sel - w.length)).1 - i =
            ((actualIndexGo rest (i + 1) (sel - w.length)).1 - (i + 1)) + 1 := by
          omega
        rw [hstep, List.take_succ_cons, sumLen_cons]
        omega

theorem eff_actual (cells : List GridWord) (sel : Nat) :
    effectiveIndex cells (actualIndex cells sel).1 (actualIndex cells sel).2 = sel := by
  obtain ⟨h1, h2, h3⟩ := actualIndexGo_spec cells 0 sel
  simpa [actualIndex, effectiveIndex_eq] using h3

theorem actualIndexGo_of_lt : ∀ (cells : List GridWord) (i w s : Nat),
    (∀ u ∈ cells, 0 < u.length) → w < cells.length → s < (cells.getD w []).length →
    actualIndexGo cells i (sumLen (cells.take w) + s) = (i + w, s)
  | [], _, w, _, _, hw, _ => absurd hw (by simp)
  | c :: rest, i, 0, s, _, _, hs => by
    rw [actualIndexGo]
    simp only [List.take_zero, sumLen, List.map_nil, List.sum_nil, Nat.zero_add]
    by_cases h0 : s = 0
    · subst h0
      simp
    · rw [if_neg h0, if_pos (by simpa using hs)]
      simp
  | c :: rest, i, w + 1, s, hpos, hw, hs => by
    rw [actualIndexGo, List.take_succ_cons, sumLen_cons]
    have hc : 0 < c.length := hpos c (by simp)
    rw [if_neg (by omega), if_neg (by omega)]
    have harg : c.length + (sumLen (rest.take w) + s) - c.length =
        sumLen (rest.take w) + s := by omega
    rw [Nat.add_assoc, harg]
    rw [actualIndexGo_of_lt rest (i + 1) w s (fun u hu => hpos u (by simp [hu]))
      (by simpa using hw) (by simpa using hs)]
    simp [Prod.ext_iff]
    omega

theorem actual_eff (cells : List GridWord) (w s : Nat)
    (hpos : ∀ u ∈ cells, 0 < u.length) (hw : w < cells.length)
    (hs : s < (cells.getD w []).length) :
    actualIndex cells (effectiveIndex cells w s) = (w, s) := by
  have h := actualIndexGo_of_lt cells 0 w s hpos hw hs
  simpa [actualIndex, effectiveIndex_eq] using h

theorem sumLen_take_add : ∀ (cells : List GridWord) (w : Nat), w < cells.length →
    sumLen (cells.take w) + (cells.getD w []).length ≤ sumLen cells
  | c :: rest, 0, _ => by
    simp [sumLen_cons, sumLen]
  | c :: rest, w + 1, hw => by
    rw [List.take_succ_cons, sumLen_cons, sumLen_cons, List.getD_cons_succ]
    have := sumLen_take_add rest w (by simpa using hw)
    omega


/-- C2 (counterexample): the claimed round-trip law fails at the edge the
claim includes.  For WordLengths [5, 4] the coordinate (w, s) = (0, 5)
satisfies s ≤ WordLengths[0], yet
toCoordinate (fromCoordinate (0, 5)) = actualIndex (effectiveIndex 0 5)
evaluates to (1, 0), not (0, 5). -/
theorem cursor_roundtrip_fails_at_word_length :
    5 ≤ ((newArr [5, 4]).getD 0 []).length ∧ 0 < (newArr [5, 4]).length ∧
    actualIndex (newArr [5, 4]) (effectiveIndex (newArr [5, 4]) 0 5) = (1, 0) ∧
    actualIndex (newArr [5, 4]) (effectiveIndex (newArr [5, 4]) 0 5) ≠ (0, 5) := by
  decide

/-- C2 (amended): the round-trip law that does hold.  For every flat
position p in [0, totalSlots], fromCoordinate (toCoordinate p) = p (this
direction needs no side condition); and for every coordinate (w, s) with
w a valid word index and s < WordLengths[w] (strictly, not s ≤), with all
word lengths positive, toCoordinate (fromCoordinate (w, s)) = (w, s). -/
theorem cursor_roundtrip_amended :
    (∀ (cells : List GridWord) (p : Nat), p ≤ sumLen cells →
      effectiveIndex cells (actualIndex cells p).1 (actualIndex cells p).2 = p) ∧
    (∀ (cells : List GridWord) (w s : Nat), (∀ u ∈ cells, 0 < u.length) →
      w < cells.length → s < (cells.getD w []).length →
      actualIndex cells (effectiveIndex cells w s) = (w, s)) :=
  ⟨fun cells p _ => eff_actual cells p,
   fun cells w s h hw hs => actual_eff cells w s h hw hs⟩

/-- Witness for C2 (amended) at WordLengths [5, 4], p = 7 and (w, s) = (1, 2). -/
theorem cursor_roundtrip_amended_witness :
    (7 ≤ sumLen (newArr [5, 4]) ∧
      effectiveIndex (newArr [5, 4]) (actualIndex (newArr [5, 4]) 7).1
        (actualIndex (newArr [5, 4]) 7).2 = 7) ∧
    actualIndex (newArr [5, 4]) (effectiveIndex (newArr [5, 4]) 1 2) = (1, 2) :=
  ⟨⟨by decide, cursor_roundtrip_amended.1 (newArr [5, 4]) 7 (by decide)⟩,
   cursor_roundtrip_amended.2 (newArr [5, 4]) 1 2 (by decide) (by decide) (by decide)⟩


/-- C4 (confirmed): in every state with at least one empty slot, the
Enter key handler is a complete no-op: the resulting state equals the
original one, so no grading request is issued and CellMatrix, Cursor and
History are unchanged; repeated Enter presses are therefore also free of
side effects. -/
theorem incomplete_submit_noop (st : GameState) (h : ∃ w ∈ st.cells, none ∈ w) :
    handleKey st "Enter" = st := by
  have hkey : jsToLower "Enter" = "enter" := by decide
  rw [handleKey]
  rw [hkey]
  rw [if_neg (by decide), if_pos rfl, lockInGuess, if_pos]
  rw [List.any_eq_true]
  obtain ⟨w, hw, hnone⟩ := h
  exact ⟨w, hw, by simpa using hnone⟩

/-- Witness for C4: WordLengths [2, 1] with only two of three slots
filled; Enter leaves the state unchanged. -/
theorem incomplete_submit_noop_witness :
    handleKey ⟨[[some 'a', none], [some 'b']], 1, [], none, []⟩ "Enter" =
      ⟨[[some 'a', none], [some 'b']], 1, [], none, []⟩ :=
  incomplete_submit_noop ⟨[[some 'a', none], [some 'b']], 1, [], none, []⟩
    ⟨[some 'a', none], by simp, by simp⟩

/-- C5 (confirmed): a failing grading response or transport failure
leaves CellMatrix, Cursor and History unchanged and sets SubmissionError
to the failure payload message when present and to the generic fallback
"oh no" otherwise. -/
theorem failure_sets_error_preserves_state (st : GameState) (msg : Option String) :
    (applyFailure st msg).cells = st.cells ∧
    (applyFailure st msg).selectedCell = st.selectedCell ∧
    (applyFailure st msg).previousGuesses = st.previousGuesses ∧
    (st.pending ≠ [] → (applyFailure st msg).error = some (msg.getD "oh no")) ∧
    (∀ m, st.pending ≠ [] → msg = some m → (applyFailure st msg).error = some m) ∧
    (st.pending ≠ [] → msg = none → (applyFailure st msg).error = some "oh no") := by
  rcases hp : st.pending with _ | ⟨g, rest⟩ <;>
    simp [applyFailure, hp]
  constructor
  · intro m hm
    subst hm
    rfl
  · intro hm
    subst hm
    rfl

/-- Witness for C5: a failure with message "unknown id" yields
SubmissionError = "unknown id" with grid and cursor untouched. -/
theorem failure_sets_error_witness :
    (applyFailure ⟨[[some 'a']], 1, [], none, ["a"]⟩ (some "unknown id")).cells =
      [[some 'a']] ∧
    (applyFailure ⟨[[some 'a']], 1, [], none, ["a"]⟩ (some "unknown id")).selectedCell = 1 ∧
    (applyFailure ⟨[[some 'a']], 1, [], none, ["a"]⟩ (some "unknown id")).error =
      some "unknown id" :=
  ⟨(failure_sets_error_preserves_state ⟨[[some 'a']], 1, [], none, ["a"]⟩
      (some "unknown id")).1,
   (failure_sets_error_preserves_state ⟨[[some 'a']], 1, [], none, ["a"]⟩
      (some "unknown id")).2.1,
   (failure_sets_error_preserves_state ⟨[[some 'a']], 1, [], none, ["a"]⟩
      (some "unknown id")).2.2.2.2.1 "unknown id" (by decide) rfl⟩

/-- C10 (confirmed): allowedChar accepts exactly the single-character
strings matching [a-zA-Z1-9]: the digit '0' is rejected while '1'
through '9' and letters are accepted, and a '0' key press leaves the
whole state (every slot and the cursor) unchanged. -/
theorem allowedChar_class :
    allowedChar "0" = false ∧ allowedChar "1" = true ∧ allowedChar "5" = true ∧
    allowedChar "9" = true ∧ allowedChar "a" = true ∧ allowedChar "z" = true ∧
    allowedChar "A" = true ∧ allowedChar "Z" = true ∧ allowedChar "ab" = false ∧
    allowedChar "" = false ∧
    (∀ s : String, allowedChar s = true ↔ ∃ c, s.data = [c] ∧ allowedCharP c = true) ∧
    (∀ st : GameState, handleKey st "0" = st) := by
  refine ⟨by decide, by decide, by decide, by decide, by decide, by decide, by decide,
    by decide, by decide, by decide, ?_, ?_⟩
  · intro s
    rcases s with ⟨data⟩
    rw [allowedChar, Bool.and_eq_true, beq_iff_eq, List.any_eq_true]
    constructor
    · rintro ⟨hlen, c, hc, hP⟩
      have : ∃ c, data = [c] := List.length_eq_one.1 hlen
      obtain ⟨c', hc'⟩ := this
      subst hc'
      simp at hc
      subst hc
      exact ⟨c, rfl, hP⟩
    · rintro ⟨c, hdata, hP⟩
      have hd : data = [c] := hdata
      subst hd
      exact ⟨rfl, c, by simp, hP⟩
  · intro st
    rw [handleKey]
    rw [if_neg (by decide), if_neg (by decide), if_neg]
    intro hcond
    exact absurd hcond.1 (by decide)


/-- C1 (code_bug): evaluation of the success handler at the failing
input.  For WordLengths [5, 4] and a flat grade response of length 9, the
code appends a group of 9 records, pairing record i with the single grade
element i (records 2..8 having no word at all), instead of the 2 records
pairing word i with the grade chunk at the WordLengths prefix-sum
boundaries that the spec-modelled reconstruction produces. -/
theorem grade_reconstruction_flat_bug :
    (applySuccess [5, 4] ⟨newArr [5, 4], 9, [], none, ["abcde fghi"]⟩
      [Grade.Incorrect, Grade.Correct, Grade.WrongPlace, Grade.Incorrect, Grade.Correct,
       Grade.Correct, Grade.Incorrect, Grade.WrongPlace, Grade.Correct]).previousGuesses =
      [[⟨some "abcde", Grade.Incorrect⟩, ⟨some "fghi", Grade.Correct⟩,
        ⟨none, Grade.WrongPlace⟩, ⟨none, Grade.Incorrect⟩, ⟨none, Grade.Correct⟩,
        ⟨none, Grade.Correct⟩, ⟨none, Grade.Incorrect⟩, ⟨none, Grade.WrongPlace⟩,
        ⟨none, Grade.Correct⟩]] ∧
    specGuessRecords [5, 4] ["abcde", "fghi"]
      [Grade.Incorrect, Grade.Correct, Grade.WrongPlace, Grade.Incorrect, Grade.Correct,
       Grade.Correct, Grade.Incorrect, Grade.WrongPlace, Grade.Correct] =
      [⟨"abcde", [Grade.Incorrect, Grade.Correct, Grade.WrongPlace, Grade.Incorrect,
         Grade.Correct]⟩,
       ⟨"fghi", [Grade.Correct, Grade.Incorrect, Grade.WrongPlace, Grade.Correct]⟩] ∧
    ((applySuccess [5, 4] ⟨newArr [5, 4], 9, [], none, ["abcde fghi"]⟩
      [Grade.Incorrect, Grade.Correct, Grade.WrongPlace, Grade.Incorrect, Grade.Correct,
       Grade.Correct, Grade.Incorrect, Grade.WrongPlace,
       Grade.Correct]).previousGuesses.getD 0 []).length = 9 := by
  decide

/-- C3 (code_bug): the submit trigger has no pending guard.  From a
fully filled grid, a second Enter before any response arrives issues a
second grading request: two requests are outstanding at once. -/
theorem double_submit_two_outstanding :
    (handleKey ⟨[[some 'a']], 1, [], none, []⟩ "Enter").pending = ["a"] ∧
    (handleKey (handleKey ⟨[[some 'a']], 1, [], none, []⟩ "Enter") "Enter").pending =
      ["a", "a"] ∧
    (handleKey (handleKey ⟨[[some 'a']], 1, [], none, []⟩ "Enter")
      "Enter").pending.length = 2 := by
  decide

/-- C6 (counterexample): the reset state (all slots empty, Cursor 0) is
not exclusive to successful submissions.  From the state with the single
word "a" filled and Cursor 1, a Backspace key event — with no request
outstanding and none ever issued — yields every slot empty and Cursor 0. -/
theorem reset_state_reachable_by_backspace :
    handleKey ⟨[[some 'a']], 1, [], none, []⟩ "Backspace" = ⟨[[none]], 0, [], none, []⟩ ∧
    (∀ w ∈ (handleKey ⟨[[some 'a']], 1, [], none, []⟩ "Backspace").cells,
      ∀ oc ∈ w, oc = none) ∧
    (handleKey ⟨[[some 'a']], 1, [], none, []⟩ "Backspace").selectedCell = 0 ∧
    (handleKey ⟨[[some 'a']], 1, [], none, []⟩ "Backspace").pending = [] ∧
    (handleKey ⟨[[some 'a']], 1, [], none, []⟩ "Backspace").previousGuesses = [] := by
  decide

/-- C6 (amended): after every successful submission every slot is empty,
Cursor is 0 and SubmissionError is cleared, and no failed submission
changes CellMatrix or Cursor; but a key event (backspace) can also
produce the all-empty, Cursor-0 state, so the reset state is not reached
only by successful submissions. -/
theorem reset_on_success_amended (lengths : List Nat) (st : GameState)
    (grade : List Grade) (msg : Option String) :
    (st.pending ≠ [] →
      (∀ w ∈ (applySuccess lengths st grade).cells, ∀ oc ∈ w, oc = none) ∧
      (applySuccess lengths st grade).selectedCell = 0 ∧
      (applySuccess lengths st grade).error = none) ∧
    (applyFailure st msg).cells = st.cells ∧
    (applyFailure st msg).selectedCell = st.selectedCell := by
  refine ⟨?_, ?_, ?_⟩
  · intro hp
    rcases hpe : st.pending with _ | ⟨g, rest⟩
    · exact absurd hpe hp
    · refine ⟨?_, by simp [applySuccess, hpe], by simp [applySuccess, hpe]⟩
      intro w hw oc hoc
      simp only [applySuccess, hpe, newArr] at hw
      obtain ⟨l, _, rfl⟩ := List.mem_map.1 hw
      exact List.eq_of_mem_replicate hoc
  · rcases hpe : st.pending with _ | ⟨g, rest⟩ <;> simp [applyFailure, hpe]
  · rcases hpe : st.pending with _ | ⟨g, rest⟩ <;> simp [applyFailure, hpe]

/-- Witness for C6 (amended) at WordLengths [1] with one outstanding
request resolved successfully. -/
theorem reset_on_success_amended_witness :
    (∀ w ∈ (applySuccess [1] ⟨[[some 'a']], 1, [], none, ["a"]⟩ [Grade.Correct]).cells,
      ∀ oc ∈ w, oc = none) ∧
    (applySuccess [1] ⟨[[some 'a']], 1, [], none, ["a"]⟩ [Grade.Correct]).selectedCell = 0 ∧
    (applySuccess [1] ⟨[[some 'a']], 1, [], none, ["a"]⟩ [Grade.Correct]).error = none :=
  (reset_on_success_amended [1] ⟨[[some 'a']], 1, [], none, ["a"]⟩ [Grade.Correct]
    none).1 (by decide)

/-- C7 (code_bug): a success response whose grade-sequence length (3)
differs from sum(WordLengths) (2) is not treated as a failure: the
handler appends a record group anyway, clears the error and resets the
grid, instead of setting SubmissionError and leaving the state alone. -/
theorem malformed_response_not_rejected :
    sumLen (newArr [2]) = 2 ∧
    (applySuccess [2] ⟨[[some 'a', some 'b']], 2, [], none, ["ab"]⟩
      [Grade.Correct, Grade.Correct, Grade.Correct]).previousGuesses =
      [[⟨some "ab", Grade.Correct⟩, ⟨none, Grade.Correct⟩, ⟨none, Grade.Correct⟩]] ∧
    (applySuccess [2] ⟨[[some 'a', some 'b']], 2, [], none, ["ab"]⟩
      [Grade.Correct, Grade.Correct, Grade.Correct]).error = none ∧
    (applySuccess [2] ⟨[[some 'a', some 'b']], 2, [], none, ["ab"]⟩
      [Grade.Correct, Grade.Correct, Grade.Correct]).cells = [[none, none]] := by
  decide


theorem map_length_setCell : ∀ (cells : List GridWord) (w i : Nat) (v : Cell),
    (setCell cells w i v).map List.length = cells.map List.length
  | [], _, _, _ => rfl
  | c :: rest, 0, i, v => by
    simp [setCell]
  | c :: rest, w + 1, i, v => by
    have ih := map_length_setCell rest w i v
    simp only [setCell, List.set_cons_succ, List.getD_cons_succ, List.map_cons]
    rw [← ih]
    rfl

theorem map_length_newArr : ∀ lengths : List Nat,
    (newArr lengths).map List.length = lengths
  | [] => rfl
  | l :: rest => by
    have ih := map_length_newArr rest
    simp only [newArr, List.map_cons, List.length_replicate] at ih ⊢
    rw [ih]

theorem lockInGuess_cells (st : GameState) : (lockInGuess st).cells = st.cells := by
  rw [lockInGuess]
  split <;> rfl

theorem lockInGuess_selectedCell (st : GameState) :
    (lockInGuess st).selectedCell = st.selectedCell := by
  rw [lockInGuess]
  split <;> rfl

theorem handleKey_backspace_eq (st : GameState) (s : String)
    (hb : jsToLower s = "backspace") :
    handleKey st s =
      { st with
        selectedCell := st.selectedCell - 1
        cells := setCell st.cells (actualIndex st.cells (st.selectedCell - 1)).1
          (actualIndex st.cells (st.selectedCell - 1)).2 none } := by
  rw [handleKey, hb, if_pos rfl]

theorem handleKey_enter_eq (st : GameState) (s : String)
    (hb : jsToLower s ≠ "backspace") (he : jsToLower s = "enter") :
    handleKey st s = lockInGuess st := by
  rw [handleKey, he]
  exact if_neg (by intro hc; exact hb (by rw [he, hc]))

theorem handleKey_letter_eq (st : GameState) (s : String)
    (hb : jsToLower s ≠ "backspace") (he : jsToLower s ≠ "enter") :
    handleKey st s =
      if allowedChar (jsToLower s) = true ∧
          (actualIndex st.cells st.selectedCell).1 < st.cells.length ∧
          (actualIndex st.cells st.selectedCell).2 <
            (st.cells.getD (actualIndex st.cells st.selectedCell).1 []).length then
        { st with
          cells := setCell st.cells (actualIndex st.cells st.selectedCell).1
            (actualIndex st.cells st.selectedCell).2 (some ((jsToLower s).data.headD ' '))
          selectedCell := st.selectedCell + 1 }
      else st := by
  rw [handleKey, if_neg hb, if_neg he]

theorem handleKey_shaped (lengths : List Nat) (st : GameState) (s : String)
    (h : Shaped lengths st) : Shaped lengths (handleKey st s) := by
  obtain ⟨hshape, hsel⟩ := h
  by_cases hb : jsToLower s = "backspace"
  · rw [handleKey_backspace_eq st s hb]
    exact ⟨by rw [map_length_setCell, hshape], by simp; omega⟩
  · by_cases he : jsToLower s = "enter"
    · rw [handleKey_enter_eq st s hb he]
      exact ⟨by rw [lockInGuess_cells, hshape],
        by rw [lockInGuess_selectedCell]; exact hsel⟩
    · rw [handleKey_letter_eq st s hb he]
      split
      · next hcond =>
        obtain ⟨hallowed, hw, hi⟩ := hcond
        refine ⟨by rw [map_length_setCell, hshape], ?_⟩
        show st.selectedCell + 1 ≤ lengths.sum
        obtain ⟨h1, h2, h3⟩ := actualIndexGo_spec st.cells 0 st.selectedCell
        have hbound := sumLen_take_add st.cells (actualIndex st.cells st.selectedCell).1 hw
        have hsum : sumLen st.cells = lengths.sum := by
          rw [sumLen, hshape]
        simp only [actualIndex, Nat.sub_zero] at h3 hbound hi
        omega
      · exact ⟨hshape, hsel⟩

theorem step_shaped (lengths : List Nat) (st : GameState) (e : Event)
    (h : Shaped lengths st) : Shaped lengths (step lengths st e) := by
  cases e with
  | key s => exact handleKey_shaped lengths st s h
  | success g =>
    rcases hpe : st.pending with _ | ⟨guess, rest⟩
    · simpa [step, applySuccess, hpe] using h
    · exact ⟨by simp [step, applySuccess, hpe, map_length_newArr],
        by simp [step, applySuccess, hpe]⟩
  | failure m =>
    rcases hpe : st.pending with _ | ⟨guess, rest⟩ <;>
      simpa [step, applyFailure, hpe] using h

theorem initState_shaped (lengths : List Nat) : Shaped lengths (initState lengths) :=
  ⟨map_length_newArr lengths, Nat.zero_le _⟩

theorem foldl_step_shaped (lengths : List Nat) : ∀ (events : List Event) (st : GameState),
    Shaped lengths st → Shaped lengths (events.foldl (step lengths) st)
  | [], _, h => h
  | e :: es, st, h =>
    foldl_step_shaped lengths es (step lengths st e) (step_shaped lengths st e h)

theorem run_shaped (lengths : List Nat) (events : List Event) :
    Shaped lengths (run lengths events) :=
  foldl_step_shaped lengths events (initState lengths) (initState_shaped lengths)

/-- C8 (confirmed): every single event handler preserves the cursor
bound 0 ≤ Cursor ≤ sum(WordLengths) (the lower bound holds by the Nat
model of the source clamp Math.max(x - 1, 0)), and after any event
sequence from the initial state the bound holds. -/
theorem cursor_bound_invariant :
    (∀ (lengths : List Nat) (st : GameState) (e : Event),
      st.cells.map List.length = lengths → st.selectedCell ≤ lengths.sum →
      (step lengths st e).cells.map List.length = lengths ∧
      (step lengths st e).selectedCell ≤ lengths.sum) ∧
    (∀ (lengths : List Nat) (events : List Event),
      0 ≤ (run lengths events).selectedCell ∧
      (run lengths events).selectedCell ≤ lengths.sum) :=
  ⟨fun lengths st e h1 h2 => step_shaped lengths st e ⟨h1, h2⟩,
   fun lengths events => ⟨Nat.zero_le _, (run_shaped lengths events).2⟩⟩

/-- Witness for C8 at WordLengths [2, 2], one letter key event from the
initial state. -/
theorem cursor_bound_invariant_witness :
    (step [2, 2] (initState [2, 2]) (Event.key "a")).cells.map List.length = [2, 2] ∧
    (step [2, 2] (initState [2, 2]) (Event.key "a")).selectedCell ≤ [2, 2].sum :=
  cursor_bound_invariant.1 [2, 2] (initState [2, 2]) (Event.key "a")
    (by decide) (by decide)


theorem mem_data_wordString : ∀ (w : GridWord) (c : Char),
    c ∈ (wordString w).data → some c ∈ w
  | [], c, h => absurd h (by simp [wordString])
  | oc :: rest, c, h => by
    rw [wordString, String.data_append] at h
    rcases List.mem_append.1 h with h1 | h2
    · cases oc with
      | none => simp [cellString] at h1
      | some c' =>
        simp only [cellString, String.singleton] at h1
        rcases List.mem_singleton.1 (by simpa using h1) with rfl
        exact List.mem_cons_self _ _
    · exact List.mem_cons_of_mem _ (mem_data_wordString rest c h2)

theorem mem_data_joinWords : ∀ (cells : List GridWord) (c : Char),
    c ∈ (joinWords cells).data → c = ' ' ∨ ∃ w ∈ cells, some c ∈ w
  | [], c, h => absurd h (by simp [joinWords])
  | [w], c, h =>
    Or.inr ⟨w, List.mem_singleton.2 rfl, mem_data_wordString w c (by simpa [joinWords] using h)⟩
  | w :: w' :: rest, c, h => by
    rw [show joinWords (w :: w' :: rest) = wordString w ++ " " ++ joinWords (w' :: rest)
      from rfl, String.data_append, String.data_append] at h
    rcases List.mem_append.1 h with h1 | h2
    · rcases List.mem_append.1 h1 with h3 | h4
      · exact Or.inr ⟨w, List.mem_cons_self _ _, mem_data_wordString w c h3⟩
      · exact Or.inl (by simpa using h4)
    · rcases mem_data_joinWords (w' :: rest) c h2 with h5 | ⟨u, hu, hcu⟩
      · exact Or.inl h5
      · exact Or.inr ⟨u, List.mem_cons_of_mem _ hu, hcu⟩

mutual
theorem splitWSGo_chars : ∀ (l acc : List Char) (s : String),
    s ∈ splitWSGo l acc → ∀ c ∈ s.data, c ∈ l ∨ c ∈ acc
  | [], acc, s, hs, c, hc => by
    rw [splitWSGo] at hs
    rcases List.mem_singleton.1 hs with rfl
    right
    simpa using hc
  | a :: rest, acc, s, hs, c, hc => by
    rw [splitWSGo] at hs
    by_cases ha : a = ' '
    · rw [if_pos ha] at hs
      rcases List.mem_cons.1 hs with rfl | h2
      · right
        simpa using hc
      · exact Or.inl (List.mem_cons_of_mem _ (splitWSSkip_chars rest s h2 c hc))
    · rw [if_neg ha] at hs
      rcases splitWSGo_chars rest (a :: acc) s hs c hc with h3 | h4
      · exact Or.inl (List.mem_cons_of_mem _ h3)
      · rcases List.mem_cons.1 h4 with rfl | h5
        · exact Or.inl (List.mem_cons_self _ _)
        · exact Or.inr h5

theorem splitWSSkip_chars : ∀ (l : List Char) (s : String),
    s ∈ splitWSSkip l → ∀ c ∈ s.data, c ∈ l
  | [], s, hs, c, hc => by
    rw [splitWSSkip] at hs
    rcases List.mem_singleton.1 hs with rfl
    simp at hc
  | a :: rest, s, hs, c, hc => by
    rw [splitWSSkip] at hs
    by_cases ha : a = ' '
    · rw [if_pos ha] at hs
      exact List.mem_cons_of_mem _ (splitWSSkip_chars rest s hs c hc)
    · rw [if_neg ha] at hs
      rcases splitWSGo_chars rest [a] s hs c hc with h3 | h4
      · exact List.mem_cons_of_mem _ h3
      · rcases List.mem_singleton.1 h4 with rfl
        exact List.mem_cons_self _ _
end

theorem setCell_chars {cells : List GridWord} {w i : Nat} {v : Cell} :
    ∀ w' ∈ setCell cells w i v, ∀ oc ∈ w', (∃ u ∈ cells, oc ∈ u) ∨ oc = v := by
  intro w' hw' oc hoc
  rcases List.mem_or_eq_of_mem_set hw' with hmem | rfl
  · exact Or.inl ⟨w', hmem, hoc⟩
  · rcases List.mem_or_eq_of_mem_set hoc with hmem2 | rfl
    · rcases hget : cells[w]? with _ | u
      · rw [List.getD_eq_getElem?_getD, hget] at hmem2
        simp at hmem2
      · rw [List.getD_eq_getElem?_getD, hget] at hmem2
        exact Or.inl ⟨u, List.getElem?_mem hget, by simpa using hmem2⟩
    · exact Or.inr rfl

theorem jsToLower_headD_not_upper (s : String) :
    ((jsToLower s).data.headD ' ').isUpper = false := by
  rcases s with ⟨data⟩
  cases data with
  | nil => decide
  | cons c rest => exact toLower_not_upper c

theorem handleKey_noUpper (st : GameState) (s : String) (h : NoUpperState st) :
    NoUpperState (handleKey st s) := by
  obtain ⟨hcells, hpend, hhist⟩ := h
  by_cases hb : jsToLower s = "backspace"
  · rw [handleKey_backspace_eq st s hb]
    refine ⟨?_, hpend, hhist⟩
    intro w hw c hc
    rcases setCell_chars w hw (some c) hc with ⟨u, hu, hcu⟩ | heq
    · exact hcells u hu c hcu
    · exact absurd heq (by simp)
  · by_cases he : jsToLower s = "enter"
    · rw [handleKey_enter_eq st s hb he, lockInGuess]
      split
      · exact ⟨hcells, hpend, hhist⟩
      · refine ⟨hcells, ?_, hhist⟩
        intro g hg c hc
        rcases List.mem_append.1 hg with h1 | h2
        · exact hpend g h1 c hc
        · rcases List.mem_singleton.1 h2 with rfl
          rcases mem_data_joinWords st.cells c hc with rfl | ⟨u, hu, hcu⟩
          · decide
          · exact hcells u hu c hcu
    · rw [handleKey_letter_eq st s hb he]
      split
      · refine ⟨?_, hpend, hhist⟩
        intro w hw c hc
        rcases setCell_chars w hw (some c) hc with ⟨u, hu, hcu⟩ | heq
        · exact hcells u hu c hcu
        · rcases Option.some.inj heq with rfl
          exact jsToLower_headD_not_upper s
      · exact ⟨hcells, hpend, hhist⟩

theorem applySuccess_noUpper (lengths : List Nat) (st : GameState) (grade : List Grade)
    (h : NoUpperState st) : NoUpperState (applySuccess lengths st grade) := by
  obtain ⟨hcells, hpend, hhist⟩ := h
  rcases hpe : st.pending with _ | ⟨guess, rest⟩
  · simp only [applySuccess, hpe]
    exact ⟨hcells, hpend, hhist⟩
  · simp only [applySuccess, hpe]
    refine ⟨?_, ?_, ?_⟩
    · intro w hw c hc
      simp only [newArr] at hw
      obtain ⟨l, _, rfl⟩ := List.mem_map.1 hw
      exact absurd (List.eq_of_mem_replicate hc) (by simp)
    · intro g hg c hc
      exact hpend g (by rw [hpe]; exact List.mem_cons_of_mem _ hg) c hc
    · intro grp hgrp r hr str hstr c hc
      rcases List.mem_append.1 hgrp with h1 | h2
      · exact hhist grp h1 r hr str hstr c hc
      · rcases List.mem_singleton.1 h2 with rfl
        simp only [splitGuessRecords] at hr
        obtain ⟨gi, _, rfl⟩ := List.mem_map.1 hr
        have hmem : str ∈ splitWS guess := List.get?_mem hstr
        rcases splitWSGo_chars guess.data [] str hmem c hc with h3 | h4
        · exact hpend guess (by rw [hpe]; exact List.mem_cons_self _ _) c h3
        · simp at h4

theorem applyFailure_noUpper (st : GameState) (msg : Option String)
    (h : NoUpperState st) : NoUpperState (applyFailure st msg) := by
  obtain ⟨hcells, hpend, hhist⟩ := h
  rcases hpe : st.pending with _ | ⟨guess, rest⟩
  · simp only [applyFailure, hpe]
    exact ⟨hcells, hpend, hhist⟩
  · simp only [applyFailure, hpe]
    exact ⟨hcells, fun g hg => hpend g (by rw [hpe]; exact List.mem_cons_of_mem _ hg), hhist⟩

theorem step_noUpper (lengths : List Nat) (st : GameState) (e : Event)
    (h : NoUpperState st) : NoUpperState (step lengths st e) := by
  cases e with
  | key s => exact handleKey_noUpper st s h
  | success g => exact applySuccess_noUpper lengths st g h
  | failure m => exact applyFailure_noUpper st m h

theorem initState_noUpper (lengths : List Nat) : NoUpperState (initState lengths) := by
  refine ⟨?_, by simp [initState], by simp [initState]⟩
  intro w hw c hc
  simp only [initState, newArr] at hw
  obtain ⟨l, _, rfl⟩ := List.mem_map.1 hw
  exact absurd (List.eq_of_mem_replicate hc) (by simp)

theorem foldl_step_noUpper (lengths : List Nat) : ∀ (events : List Event) (st : GameState),
    NoUpperState st → NoUpperState (events.foldl (step lengths) st)
  | [], _, h => h
  | e :: es, st, h =>
    foldl_step_noUpper lengths es (step lengths st e) (step_noUpper lengths st e h)

theorem run_noUpper (lengths : List Nat) (events : List Event) :
    NoUpperState (run lengths events) :=
  foldl_step_noUpper lengths events (initState lengths) (initState_noUpper lengths)

/-- C9 (confirmed): after any event sequence from the initial state,
every character stored in a CellMatrix slot, every character of every
submitted (outstanding) guess string and every character of every word
recorded in History is non-uppercase and a fixed point of lowercasing —
the stored character is the lowercased form of the pressed key, even when
the user types with Shift or Caps Lock. -/
theorem stored_chars_lowercase (lengths : List Nat) (events : List Event) :
    (∀ w ∈ (run lengths events).cells, ∀ c : Char, some c ∈ w →
      c.isUpper = false ∧ Char.toLower c = c) ∧
    (∀ g ∈ (run lengths events).pending, ∀ c ∈ g.data,
      c.isUpper = false ∧ Char.toLower c = c) ∧
    (∀ grp ∈ (run lengths events).previousGuesses, ∀ r ∈ grp, ∀ str,
      r.guess = some str → ∀ c ∈ str.data, c.isUpper = false ∧ Char.toLower c = c) := by
  obtain ⟨h1, h2, h3⟩ := run_noUpper lengths events
  refine ⟨?_, ?_, ?_⟩
  · intro w hw c hc
    exact ⟨h1 w hw c hc, toLower_of_not_upper (h1 w hw c hc)⟩
  · intro g hg c hc
    exact ⟨h2 g hg c hc, toLower_of_not_upper (h2 g hg c hc)⟩
  · intro grp hgrp r hr str hstr c hc
    exact ⟨h3 grp hgrp r hr str hstr c hc,
      toLower_of_not_upper (h3 grp hgrp r hr str hstr c hc)⟩

/-- Witness for C9: pressing Shift-"A" on WordLengths [1] stores the
lowercase character. -/
theorem stored_chars_lowercase_witness :
    Char.isUpper 'a' = false ∧ Char.toLower 'a' = 'a' :=
  (stored_chars_lowercase [1] [Event.key "A"]).1 [some 'a'] (by decide) 'a' (by decide)

/-- Witness for C10: a '0' key press on a concrete state changes nothing. -/
theorem allowedChar_class_witness :
    handleKey ⟨[[none]], 0, [], none, []⟩ "0" = ⟨[[none]], 0, [], none, []⟩ :=
  allowedChar_class.2.2.2.2.2.2.2.2.2.2.2 ⟨[[none]], 0, [], none, []⟩

end Bandordle
